import Mathlib

/-!
Verification of the PEWMA (Probabilistic Exponentially Weighted Moving
Average) stream processor, a shallow embedding of `src/pewma.go`.

Scalars of the program are IEEE-754 `float64`; the embedding idealizes
rounding away (finite values carry an exact real number) but keeps the
special values NaN, +Inf and -Inf together with the IEEE rules for the
operations the program performs on them, since the algorithm's
classification behaviour at zero standard deviation depends on them.
-/

open scoped Classical

/-- An idealized IEEE-754 scalar: NaN, +Inf, -Inf, or a finite value carrying
an exact real number (rounding is not modelled). -/
inductive Fl where
  | nan : Fl
  | inf : Fl
  | ninf : Fl
  | fin : ℝ → Fl

/-- IEEE negation. -/
def Fl.neg : Fl → Fl
  | nan => nan
  | inf => ninf
  | ninf => inf
  | fin x => fin (-x)

/-- IEEE addition (exact on finite operands). -/
def Fl.add : Fl → Fl → Fl
  | nan, _ => nan
  | _, nan => nan
  | inf, ninf => nan
  | ninf, inf => nan
  | inf, _ => inf
  | _, inf => inf
  | ninf, _ => ninf
  | _, ninf => ninf
  | fin x, fin y => fin (x + y)

/-- IEEE subtraction, via addition of the negation (identical in IEEE). -/
def Fl.sub (a b : Fl) : Fl := a.add b.neg

/-- IEEE multiplication (exact on finite operands); `0 * ±Inf` is NaN. -/
noncomputable def Fl.mul : Fl → Fl → Fl
  | nan, _ => nan
  | _, nan => nan
  | inf, inf => inf
  | inf, ninf => ninf
  | ninf, inf => ninf
  | ninf, ninf => inf
  | inf, fin y => if y = 0 then nan else if 0 < y then inf else ninf
  | fin x, inf => if x = 0 then nan else if 0 < x then inf else ninf
  | ninf, fin y => if y = 0 then nan else if 0 < y then ninf else inf
  | fin x, ninf => if x = 0 then nan else if 0 < x then ninf else inf
  | fin x, fin y => fin (x * y)

/-- IEEE division (exact on finite operands). The finite zero is treated as
+0, matching the program, where the only zero divisor arises from
`math.Sqrt`, which returns +0: `0/0` is NaN and `x/0` for `x ≠ 0` is a
signed infinity. -/
noncomputable def Fl.div : Fl → Fl → Fl
  | nan, _ => nan
  | _, nan => nan
  | inf, inf => nan
  | inf, ninf => nan
  | ninf, inf => nan
  | ninf, ninf => nan
  | inf, fin y => if 0 ≤ y then inf else ninf
  | ninf, fin y => if 0 ≤ y then ninf else inf
  | fin _, inf => fin 0
  | fin _, ninf => fin 0
  | fin x, fin y =>
      if y = 0 then (if x = 0 then nan else if 0 < x then inf else ninf)
      else fin (x / y)

/-- IEEE `math.Exp`: `exp(-Inf) = 0`, `exp(+Inf) = +Inf`, `exp(NaN) = NaN`. -/
noncomputable def Fl.exp : Fl → Fl
  | nan => nan
  | inf => inf
  | ninf => fin 0
  | fin x => fin (Real.exp x)

/-- IEEE `math.Sqrt`: NaN on negative arguments, `sqrt(+Inf) = +Inf`. -/
noncomputable def Fl.sqrt : Fl → Fl
  | nan => nan
  | inf => inf
  | ninf => nan
  | fin x => if x < 0 then nan else fin (Real.sqrt x)

/-- IEEE `<=` comparison: any comparison with NaN is false. -/
def Fl.le : Fl → Fl → Prop
  | nan, _ => False
  | _, nan => False
  | ninf, _ => True
  | _, inf => True
  | inf, _ => False
  | fin _, ninf => False
  | fin x, fin y => x ≤ y

@[simp] theorem Fl.neg_fin (x : ℝ) : (Fl.fin x).neg = Fl.fin (-x) := rfl

@[simp] theorem Fl.add_fin_fin (x y : ℝ) :
    (Fl.fin x).add (Fl.fin y) = Fl.fin (x + y) := rfl

@[simp] theorem Fl.sub_fin_fin (x y : ℝ) :
    (Fl.fin x).sub (Fl.fin y) = Fl.fin (x - y) := by
  show Fl.fin (x + -y) = Fl.fin (x - y)
  rw [← sub_eq_add_neg]

@[simp] theorem Fl.mul_fin_fin (x y : ℝ) :
    (Fl.fin x).mul (Fl.fin y) = Fl.fin (x * y) := rfl

theorem Fl.div_fin_fin (x y : ℝ) (h : y ≠ 0) :
    (Fl.fin x).div (Fl.fin y) = Fl.fin (x / y) := by
  simp [Fl.div, h]

@[simp] theorem Fl.div_fin_zero_zero : (Fl.fin 0).div (Fl.fin 0) = Fl.nan := by
  simp [Fl.div]

@[simp] theorem Fl.exp_fin (x : ℝ) : (Fl.fin x).exp = Fl.fin (Real.exp x) := rfl

theorem Fl.sqrt_fin (x : ℝ) (h : 0 ≤ x) :
    (Fl.fin x).sqrt = Fl.fin (Real.sqrt x) := by
  simp [Fl.sqrt, not_lt.mpr h]

@[simp] theorem Fl.sqrt_fin_zero : (Fl.fin (0 : ℝ)).sqrt = Fl.fin 0 := by
  rw [Fl.sqrt_fin 0 le_rfl, Real.sqrt_zero]

@[simp] theorem Fl.nan_mul (b : Fl) : Fl.nan.mul b = Fl.nan := by
  cases b <;> rfl

@[simp] theorem Fl.mul_nan (a : Fl) : a.mul Fl.nan = Fl.nan := by
  cases a <;> rfl

@[simp] theorem Fl.neg_nan : Fl.nan.neg = Fl.nan := rfl

@[simp] theorem Fl.nan_div (b : Fl) : Fl.nan.div b = Fl.nan := by
  cases b <;> rfl

@[simp] theorem Fl.exp_nan : Fl.nan.exp = Fl.nan := rfl

@[simp] theorem Fl.nan_le (b : Fl) : Fl.le Fl.nan b = False := by
  cases b <;> rfl

@[simp] theorem Fl.le_fin_fin (x y : ℝ) :
    Fl.le (Fl.fin x) (Fl.fin y) = (x ≤ y) := rfl

@[simp] theorem Fl.mul_inf_inf : Fl.inf.mul Fl.inf = Fl.inf := rfl

@[simp] theorem Fl.mul_ninf_ninf : Fl.ninf.mul Fl.ninf = Fl.inf := rfl

@[simp] theorem Fl.neg_inf : Fl.inf.neg = Fl.ninf := rfl

@[simp] theorem Fl.exp_ninf : Fl.ninf.exp = Fl.fin 0 := rfl

theorem Fl.ninf_div_fin (y : ℝ) (h : 0 ≤ y) :
    Fl.ninf.div (Fl.fin y) = Fl.ninf := by
  simp [Fl.div, h]

/-- Validated coefficients for a series, `Config` in the source. The Go
`int` field is modelled as `Int`. -/
structure Config where
  trainingPeriod : Int
  alpha0Weight : ℝ
  betaWeight : ℝ

/-- The two validation failures of `NewConfig`, distinguished by their
error messages in the source. -/
inductive ConfigError where
  | invalidAlpha : ConfigError
  | invalidBeta : ConfigError
deriving DecidableEq

/-- Translation of `NewConfig`. Note: the source's success branch reads
`alpha0Weight: adapt`, and the identifier `adapt` is declared nowhere in the
package, so the file does not compile as written; the function's own doc
comment says it "returns Config object from supplied values", so the field
is modelled as the supplied `alpha0`. -/
noncomputable def NewConfig (t : Int) (alpha0 : ℝ) (beta : ℝ) :
    Except ConfigError Config :=
  if alpha0 ≤ 0 ∨ 1 ≤ alpha0 then Except.error ConfigError.invalidAlpha
  else if beta < 0 ∨ 1 ≤ beta then Except.error ConfigError.invalidBeta
  else Except.ok { trainingPeriod := t, alpha0Weight := alpha0, betaWeight := beta }

/-- Running moment estimates, `factors` in the source. -/
structure factors where
  s1 : Fl
  s2 : Fl
  stdDeviation : Fl

/-- Translation of `factors.zt`: the standardized residual
`(v - s1) / stdDeviation`. -/
noncomputable def factors.zt (f : factors) (v : Fl) : Fl :=
  (v.sub f.s1).div f.stdDeviation

/-- Translation of `factors.pt`: `exp(-(zt*zt)/2) / sqrt(2*pi)`. -/
noncomputable def factors.pt (f : factors) (v : Fl) : Fl :=
  let zt := f.zt v
  ((((zt.mul zt).neg).div (Fl.fin 2)).exp).div ((Fl.fin (2 * Real.pi)).sqrt)

/-- Translation of `factors.detectAnomaly`: `pt(v) <= threshold`. -/
noncomputable def factors.detectAnomaly (f : factors) (threshold : Fl) (v : Fl) :
    Prop :=
  (f.pt v).le threshold

/-- Translation of `factors.New`: the EWMA update of both moments with
retention weight `alpha`, returning a fresh value (the Go receiver is a
value, so the input cannot be mutated). -/
noncomputable def factors.New (f : factors) (alpha : Fl) (v : Fl) : factors :=
  let s1 := (alpha.mul f.s1).add (((Fl.fin 1).sub alpha).mul v)
  let s2 := (alpha.mul f.s2).add (((Fl.fin 1).sub alpha).mul (v.mul v))
  let stdDeviation := (s2.sub (s1.mul s1)).sqrt
  { s1 := s1, s2 := s2, stdDeviation := stdDeviation }

/-- The stream processor, `PEWMA` in the source. -/
structure PEWMA where
  captured : List Fl
  config : Config
  factors : factors

/-- Translation of `New`: empty history and zero-valued factors. -/
def PEWMA.New (config : Config) : PEWMA :=
  { captured := [], config := config,
    factors := { s1 := Fl.fin 0, s2 := Fl.fin 0, stdDeviation := Fl.fin 0 } }

/-- Translation of `PEWMA.alpha`. In the warm-up branch the source computes
`Value(1 - 1.0/(l+1))` where `l` is a Go `int`: the untyped constant `1.0`
is converted to `int`, so the division is integer division, modelled here
exactly as `Int` division. -/
noncomputable def PEWMA.alpha (p : PEWMA) (v : Fl) : Fl :=
  let conf := p.config
  if (p.captured.length : Int) < conf.trainingPeriod then
    Fl.fin (((1 - 1 / ((p.captured.length : Int) + 1) : Int) : ℝ))
  else
    ((Fl.fin 1).sub ((Fl.fin conf.betaWeight).mul (p.factors.pt v))).mul
      (Fl.fin conf.alpha0Weight)

/-- The classification outcome, `Status` in the source. -/
inductive Status where
  | InTraining : Status
  | InOrdinary : Status
  | Outlier : Status
deriving DecidableEq

/-- Translation of `PEWMA.Analyze`. -/
noncomputable def PEWMA.Analyze (p : PEWMA) (v : Fl) (threshold : Fl) : Status :=
  if (p.captured.length : Int) < p.config.trainingPeriod then Status.InTraining
  else if p.factors.detectAnomaly threshold v then Status.Outlier
  else Status.InOrdinary

/-- State-passing reading of the pointer-receiver method `PEWMA.Analyze`:
each return site threads the receiver, which the body never assigns to. -/
noncomputable def PEWMA.AnalyzeSt (p : PEWMA) (v : Fl) (threshold : Fl) :
    Status × PEWMA :=
  if (p.captured.length : Int) < p.config.trainingPeriod then (Status.InTraining, p)
  else if p.factors.detectAnomaly threshold v then (Status.Outlier, p)
  else (Status.InOrdinary, p)

/-- Translation of `PEWMA.pushAndPop`: append, and drop the head when the
length exceeds the training period. -/
def PEWMA.pushAndPop (p : PEWMA) (v : Fl) : List Fl :=
  let newCaptured := p.captured ++ [v]
  if (newCaptured.length : Int) > p.config.trainingPeriod then newCaptured.drop 1
  else newCaptured

/-- Translation of `PEWMA.Add`: weight from the pre-update snapshot, then a
fresh processor from the same config, pushed history and updated factors. -/
noncomputable def PEWMA.Add (p : PEWMA) (v : Fl) : PEWMA :=
  let alpha := p.alpha v
  { config := p.config, captured := p.pushAndPop v,
    factors := p.factors.New alpha v }

/-- Ingestion of a whole sequence, left to right. -/
noncomputable def PEWMA.ingestAll (p : PEWMA) (vs : List Fl) : PEWMA :=
  vs.foldl PEWMA.Add p

/-- C5: `NewConfig` fails with `invalidAlpha` exactly when `alpha0 ≤ 0` or
`alpha0 ≥ 1`, fails with `invalidBeta` exactly when `alpha0` passes its
check (alpha0 is checked first) and `beta < 0` or `beta ≥ 1`, and succeeds
exactly when `0 < alpha0 < 1` and `0 ≤ beta < 1`, for every
`trainingPeriod`, zero and negative values included. -/
theorem NewConfig_validation (t : Int) (a b : ℝ) :
    (NewConfig t a b = Except.error ConfigError.invalidAlpha ↔ (a ≤ 0 ∨ 1 ≤ a)) ∧
    (NewConfig t a b = Except.error ConfigError.invalidBeta ↔
      (0 < a ∧ a < 1 ∧ (b < 0 ∨ 1 ≤ b))) ∧
    ((∃ c, NewConfig t a b = Except.ok c) ↔ (0 < a ∧ a < 1 ∧ 0 ≤ b ∧ b < 1)) := by
  unfold NewConfig
  by_cases h1 : a ≤ 0 ∨ 1 ≤ a
  · rw [if_pos h1]
    refine ⟨by simp [h1], ?_, ?_⟩
    · simp only [Except.error.injEq]
      constructor
      · intro heq
        cases heq
      · rintro ⟨ha0, ha1, -⟩
        rcases h1 with h | h <;> linarith
    · constructor
      · rintro ⟨c, hc⟩
        cases hc
      · rintro ⟨ha0, ha1, -⟩
        rcases h1 with h | h <;> linarith
  · rw [if_neg h1]
    push_neg at h1
    by_cases h2 : b < 0 ∨ 1 ≤ b
    · rw [if_pos h2]
      refine ⟨?_, ?_, ?_⟩
      · simp only [Except.error.injEq]
        constructor
        · intro heq
          cases heq
        · intro h
          rcases h with h | h <;> linarith [h1.1, h1.2]
      · simp [h1.1, h1.2, h2]
      · constructor
        · rintro ⟨c, hc⟩
          cases hc
        · rintro ⟨-, -, hb0, hb1⟩
          rcases h2 with h | h <;> linarith
    · rw [if_neg h2]
      push_neg at h2
      refine ⟨?_, ?_, ?_⟩
      · constructor
        · intro heq
          cases heq
        · intro h
          rcases h with h | h <;> linarith [h1.1, h1.2]
      · constructor
        · intro heq
          cases heq
        · rintro ⟨-, -, h⟩
          rcases h with h | h <;> linarith [h2.1, h2.2]
      · constructor
        · intro
          exact ⟨h1.1, h1.2, h2.1, h2.2⟩
        · intro
          exact ⟨_, rfl⟩

/-- C4: `Analyze` returns `InTraining` exactly when the history length is
strictly below the training period; otherwise it returns `Outlier` exactly
when the density of `v` against the pre-update factors is at most the
threshold, and `InOrdinary` otherwise; the density and z-score are the
translated formulas `exp(-(z*z)/2)/sqrt(2*pi)` and `(v - s1)/stdDeviation`. -/
theorem Analyze_characterization (p : PEWMA) (v threshold : Fl) :
    (p.Analyze v threshold = Status.InTraining ↔
      (p.captured.length : Int) < p.config.trainingPeriod) ∧
    (p.Analyze v threshold = Status.Outlier ↔
      (¬ (p.captured.length : Int) < p.config.trainingPeriod ∧
        Fl.le (p.factors.pt v) threshold)) ∧
    (p.Analyze v threshold = Status.InOrdinary ↔
      (¬ (p.captured.length : Int) < p.config.trainingPeriod ∧
        ¬ Fl.le (p.factors.pt v) threshold)) ∧
    p.factors.pt v =
      (((((p.factors.zt v).mul (p.factors.zt v)).neg).div (Fl.fin 2)).exp).div
        ((Fl.fin (2 * Real.pi)).sqrt) ∧
    p.factors.zt v = (v.sub p.factors.s1).div p.factors.stdDeviation := by
  refine ⟨?_, ?_, ?_, rfl, rfl⟩ <;>
  · unfold PEWMA.Analyze factors.detectAnomaly
    by_cases h1 : (p.captured.length : Int) < p.config.trainingPeriod <;>
      by_cases h2 : Fl.le (p.factors.pt v) threshold <;>
      simp [h1, h2]

/-- C3: the factors update with blend weight `alpha` and value `v` returns a
fresh state with `s1' = alpha*s1 + (1-alpha)*v`,
`s2' = alpha*s2 + (1-alpha)*v^2` and `stdDeviation' = sqrt(s2' - s1'^2)`;
the input is a Go value receiver expressed here in terms of the unchanged
pre-update fields, so it is not mutated. -/
theorem factors_New_update (s1 s2 sd a v : ℝ) :
    factors.New { s1 := Fl.fin s1, s2 := Fl.fin s2, stdDeviation := Fl.fin sd }
        (Fl.fin a) (Fl.fin v) =
      { s1 := Fl.fin (a * s1 + (1 - a) * v),
        s2 := Fl.fin (a * s2 + (1 - a) * v ^ 2),
        stdDeviation := Fl.sqrt (Fl.fin
          ((a * s2 + (1 - a) * v ^ 2) - (a * s1 + (1 - a) * v) ^ 2)) } := by
  unfold factors.New
  simp only [Fl.mul_fin_fin, Fl.sub_fin_fin, Fl.add_fin_fin, factors.mk.injEq,
    Fl.fin.injEq]
  refine ⟨by ring_nf, by ring_nf, ?_⟩
  congr 1
  simp only [Fl.fin.injEq]
  ring_nf

/-- C7: ingestion is total (a plain function with no error path) and
two-phased: the returned processor carries the unchanged configuration, the
pushed history, and factors computed by `factors.New` from the pre-update
factors together with the weight `p.alpha v`, itself computed from the
pre-update processor. -/
theorem Add_two_phase (p : PEWMA) (v : Fl) :
    (p.Add v).config = p.config ∧
    (p.Add v).captured = p.pushAndPop v ∧
    (p.Add v).factors = factors.New p.factors (p.alpha v) v :=
  ⟨rfl, rfl, rfl⟩

/-- C8: `Analyze`, read as a state-passing method, returns the receiver
unchanged together with the pure classification, and a second call on the
returned state with the same arguments yields the same `Status`. -/
theorem Analyze_pure_query (p : PEWMA) (v threshold : Fl) :
    p.AnalyzeSt v threshold = (p.Analyze v threshold, p) ∧
    ((p.AnalyzeSt v threshold).2.AnalyzeSt v threshold).1 =
      (p.AnalyzeSt v threshold).1 := by
  unfold PEWMA.AnalyzeSt PEWMA.Analyze
  by_cases h1 : (p.captured.length : Int) < p.config.trainingPeriod <;>
    by_cases h2 : p.factors.detectAnomaly threshold v <;>
    simp [h1, h2]

/-- History evolution of `ingestAll`: starting from a processor whose window
respects the bound, the window after ingesting a sequence is the suffix of
the concatenated stream that the training period allows. -/
theorem ingestAll_captured (vs : List Fl) : ∀ (p : PEWMA),
    (p.captured.length : Int) ≤ p.config.trainingPeriod →
    (p.ingestAll vs).captured =
      (p.captured ++ vs).drop
        ((p.captured ++ vs).length - p.config.trainingPeriod.toNat) := by
  induction vs with
  | nil =>
      intro p hp
      have h0 : (p.captured ++ []).length - p.config.trainingPeriod.toNat = 0 := by
        simp only [List.append_nil]
        omega
      rw [h0]
      simp [PEWMA.ingestAll]
  | cons v vs ih =>
      intro p hp
      have hrw : p.ingestAll (v :: vs) = (p.Add v).ingestAll vs := rfl
      have hcfg : (p.Add v).config = p.config := rfl
      have hcap : (p.Add v).captured = p.pushAndPop v := rfl
      rw [hrw]
      unfold PEWMA.pushAndPop at hcap
      by_cases h : ((p.captured ++ [v]).length : Int) > p.config.trainingPeriod
      · rw [if_pos h] at hcap
        have h' := h
        simp only [List.length_append, List.length_cons, List.length_nil] at h'
        have hlen : (((p.captured ++ [v]).drop 1).length : Int) ≤
            p.config.trainingPeriod := by
          simp only [List.length_drop, List.length_append, List.length_cons,
            List.length_nil]
          omega
        have hih := ih (p.Add v) (by rw [hcap, hcfg]; exact hlen)
        rw [hih, hcap, hcfg]
        have hassoc : p.captured ++ v :: vs = (p.captured ++ [v]) ++ vs := by
          simp
        rw [hassoc]
        have hd : (p.captured ++ [v]).drop 1 ++ vs =
            ((p.captured ++ [v]) ++ vs).drop 1 :=
          (List.drop_append_of_le_length (by simp)).symm
        rw [hd, List.drop_drop]
        congr 1
        simp only [List.length_drop, List.length_append, List.length_cons,
          List.length_nil]
        omega
      · rw [if_neg h] at hcap
        have hlen : (((p.captured ++ [v])).length : Int) ≤
            p.config.trainingPeriod := by
          push_neg at h
          exact h
        have hih := ih (p.Add v) (by rw [hcap, hcfg]; exact hlen)
        rw [hih, hcap, hcfg]
        congr 1 <;> simp

/-- C6: for any configuration with training period at least 1 and any
ingested sequence, the history length never exceeds the training period, and
once more values than the training period have been ingested the history is
exactly the most recent `trainingPeriod` values in their original order. -/
theorem window_bound (cfg : Config) (h : 1 ≤ cfg.trainingPeriod)
    (vs : List Fl) :
    ((((PEWMA.New cfg).ingestAll vs).captured.length : Int) ≤
      cfg.trainingPeriod) ∧
    (cfg.trainingPeriod < (vs.length : Int) →
      ((PEWMA.New cfg).ingestAll vs).captured =
        vs.drop (vs.length - cfg.trainingPeriod.toNat) ∧
      ((((PEWMA.New cfg).ingestAll vs).captured.length : Int) =
        cfg.trainingPeriod)) := by
  have hcap := ingestAll_captured vs (PEWMA.New cfg) (by simp [PEWMA.New]; omega)
  have hc2 : ((PEWMA.New cfg).ingestAll vs).captured =
      vs.drop (vs.length - cfg.trainingPeriod.toNat) := by
    rw [hcap]
    simp [PEWMA.New]
  constructor
  · rw [hc2]
    simp only [List.length_drop]
    omega
  · intro hN
    refine ⟨hc2, ?_⟩
    rw [hc2]
    simp only [List.length_drop]
    omega

/-- Witness for the window bound at a concrete input: training period 2,
three ingested values, the window keeps the last two in order. -/
theorem window_bound_witness :
    1 ≤ (Config.mk 2 (1/2) (1/2)).trainingPeriod ∧
    (((((PEWMA.New (Config.mk 2 (1/2) (1/2))).ingestAll
        [Fl.fin 1, Fl.fin 2, Fl.fin 3]).captured.length : Int) ≤
      (Config.mk 2 (1/2) (1/2)).trainingPeriod) ∧
    ((Config.mk 2 (1/2) (1/2)).trainingPeriod <
        (([Fl.fin 1, Fl.fin 2, Fl.fin 3] : List Fl).length : Int) →
      ((PEWMA.New (Config.mk 2 (1/2) (1/2))).ingestAll
          [Fl.fin 1, Fl.fin 2, Fl.fin 3]).captured =
        ([Fl.fin 1, Fl.fin 2, Fl.fin 3] : List Fl).drop
          (([Fl.fin 1, Fl.fin 2, Fl.fin 3] : List Fl).length -
            (Config.mk 2 (1/2) (1/2)).trainingPeriod.toNat) ∧
      ((((PEWMA.New (Config.mk 2 (1/2) (1/2))).ingestAll
          [Fl.fin 1, Fl.fin 2, Fl.fin 3]).captured.length : Int) =
        (Config.mk 2 (1/2) (1/2)).trainingPeriod))) :=
  ⟨by norm_num,
   window_bound (Config.mk 2 (1/2) (1/2)) (by norm_num)
     [Fl.fin 1, Fl.fin 2, Fl.fin 3]⟩

/-- Density at a NaN z-score: every operation propagates the NaN. -/
theorem pt_of_zt_nan (f : factors) (v : Fl) (h : f.zt v = Fl.nan) :
    f.pt v = Fl.nan := by
  simp only [factors.pt]
  rw [h]
  simp

/-- Density at a +Inf z-score: the exponential underflows to exactly 0. -/
theorem pt_of_zt_inf (f : factors) (v : Fl) (h : f.zt v = Fl.inf) :
    f.pt v = Fl.fin 0 := by
  have hs : (Fl.fin (2 * Real.pi)).sqrt = Fl.fin (Real.sqrt (2 * Real.pi)) :=
    Fl.sqrt_fin _ (by positivity)
  have hne : Real.sqrt (2 * Real.pi) ≠ 0 := by
    refine Real.sqrt_ne_zero'.mpr ?_
    positivity
  simp only [factors.pt]
  rw [h]
  simp only [Fl.mul_inf_inf, Fl.neg_inf]
  rw [Fl.ninf_div_fin 2 (by norm_num), Fl.exp_ninf, hs,
    Fl.div_fin_fin 0 _ hne, zero_div]

/-- Density at a -Inf z-score: the exponential underflows to exactly 0. -/
theorem pt_of_zt_ninf (f : factors) (v : Fl) (h : f.zt v = Fl.ninf) :
    f.pt v = Fl.fin 0 := by
  have hs : (Fl.fin (2 * Real.pi)).sqrt = Fl.fin (Real.sqrt (2 * Real.pi)) :=
    Fl.sqrt_fin _ (by positivity)
  have hne : Real.sqrt (2 * Real.pi) ≠ 0 := by
    refine Real.sqrt_ne_zero'.mpr ?_
    positivity
  simp only [factors.pt]
  rw [h]
  simp only [Fl.mul_ninf_ninf, Fl.neg_inf]
  rw [Fl.ninf_div_fin 2 (by norm_num), Fl.exp_ninf, hs,
    Fl.div_fin_fin 0 _ hne, zero_div]

/-- C10: with the history full and the standard deviation exactly 0, a value
equal to the current mean yields a `0/0 = NaN` z-score and a NaN density, the
comparison `NaN <= threshold` is false, and `Analyze` returns `InOrdinary`
for every threshold; a value different from the mean yields an infinite
z-score, a density of exactly 0, and `Analyze` returns `Outlier` for every
nonnegative threshold. -/
theorem zero_stddev_classification (p : PEWMA) (m : ℝ)
    (hs1 : p.factors.s1 = Fl.fin m)
    (hsd : p.factors.stdDeviation = Fl.fin 0)
    (hfull : ¬ (p.captured.length : Int) < p.config.trainingPeriod) :
    (∀ threshold : Fl, p.Analyze (Fl.fin m) threshold = Status.InOrdinary) ∧
    (∀ x t : ℝ, x ≠ m → 0 ≤ t →
      p.Analyze (Fl.fin x) (Fl.fin t) = Status.Outlier) := by
  constructor
  · intro threshold
    have hz : p.factors.zt (Fl.fin m) = Fl.nan := by
      unfold factors.zt
      rw [hs1, hsd]
      simp
    have hpt := pt_of_zt_nan _ _ hz
    have hdet : ¬ p.factors.detectAnomaly threshold (Fl.fin m) := by
      unfold factors.detectAnomaly
      rw [hpt]
      simp
    unfold PEWMA.Analyze
    rw [if_neg hfull, if_neg hdet]
  · intro x t hx ht
    have hz : p.factors.zt (Fl.fin x) =
        (if 0 < x - m then Fl.inf else Fl.ninf) := by
      unfold factors.zt
      rw [hs1, hsd]
      have hxm : x - m ≠ 0 := sub_ne_zero.mpr hx
      simp [Fl.div, hxm]
    have hpt : p.factors.pt (Fl.fin x) = Fl.fin 0 := by
      by_cases hlt : 0 < x - m
      · exact pt_of_zt_inf _ _ (by rw [hz, if_pos hlt])
      · exact pt_of_zt_ninf _ _ (by rw [hz, if_neg hlt])
    have hdet : p.factors.detectAnomaly (Fl.fin t) (Fl.fin x) := by
      unfold factors.detectAnomaly
      rw [hpt]
      simpa using ht
    unfold PEWMA.Analyze
    rw [if_neg hfull, if_pos hdet]

/-- Witness for the zero-standard-deviation classification at a concrete
input: training period 0, fresh zero state, mean 0. -/
theorem zero_stddev_classification_witness :
    (∀ threshold : Fl,
      (PEWMA.New (Config.mk 0 (1/2) (1/2))).Analyze (Fl.fin 0) threshold =
        Status.InOrdinary) ∧
    (∀ x t : ℝ, x ≠ 0 → 0 ≤ t →
      (PEWMA.New (Config.mk 0 (1/2) (1/2))).Analyze (Fl.fin x) (Fl.fin t) =
        Status.Outlier) :=
  zero_stddev_classification (PEWMA.New (Config.mk 0 (1/2) (1/2))) 0 rfl rfl
    (by norm_num [PEWMA.New])

/-- C9: `NewConfig 5 0.9 0.3` succeeds; after a fresh processor ingests five
values `1` (training period 5, so training is complete), `Analyze 1 0.01`
returns `InOrdinary` (the learned state is `s1 = 1` with standard deviation
exactly 0, so the z-score of `1` is `0/0 = NaN`, the density is NaN, and the
NaN comparison fails) and `Analyze 1000 0.01` returns `Outlier` (the z-score
is `+Inf`, the density exactly 0, and `0 <= 0.01`). -/
theorem concrete_scenario :
    NewConfig 5 (9/10) (3/10) = Except.ok (Config.mk 5 (9/10) (3/10)) ∧
    ((PEWMA.New (Config.mk 5 (9/10) (3/10))).ingestAll
        [Fl.fin 1, Fl.fin 1, Fl.fin 1, Fl.fin 1, Fl.fin 1]).Analyze
        (Fl.fin 1) (Fl.fin (1/100)) = Status.InOrdinary ∧
    ((PEWMA.New (Config.mk 5 (9/10) (3/10))).ingestAll
        [Fl.fin 1, Fl.fin 1, Fl.fin 1, Fl.fin 1, Fl.fin 1]).Analyze
        (Fl.fin 1000) (Fl.fin (1/100)) = Status.Outlier := by
  have h0 : (PEWMA.New (Config.mk 5 (9/10) (3/10))).Add (Fl.fin 1) =
      ⟨[Fl.fin 1], Config.mk 5 (9/10) (3/10),
        ⟨Fl.fin 1, Fl.fin 1, Fl.fin 0⟩⟩ := by
    unfold PEWMA.Add PEWMA.alpha PEWMA.pushAndPop factors.New PEWMA.New
    norm_num
  have h1 : ((⟨[Fl.fin 1], Config.mk 5 (9/10) (3/10),
      ⟨Fl.fin 1, Fl.fin 1, Fl.fin 0⟩⟩ : PEWMA)).Add (Fl.fin 1) =
      ⟨[Fl.fin 1, Fl.fin 1], Config.mk 5 (9/10) (3/10),
        ⟨Fl.fin 1, Fl.fin 1, Fl.fin 0⟩⟩ := by
    unfold PEWMA.Add PEWMA.alpha PEWMA.pushAndPop factors.New
    norm_num
  have h2 : ((⟨[Fl.fin 1, Fl.fin 1], Config.mk 5 (9/10) (3/10),
      ⟨Fl.fin 1, Fl.fin 1, Fl.fin 0⟩⟩ : PEWMA)).Add (Fl.fin 1) =
      ⟨[Fl.fin 1, Fl.fin 1, Fl.fin 1], Config.mk 5 (9/10) (3/10),
        ⟨Fl.fin 1, Fl.fin 1, Fl.fin 0⟩⟩ := by
    unfold PEWMA.Add PEWMA.alpha PEWMA.pushAndPop factors.New
    norm_num
  have h3 : ((⟨[Fl.fin 1, Fl.fin 1, Fl.fin 1], Config.mk 5 (9/10) (3/10),
      ⟨Fl.fin 1, Fl.fin 1, Fl.fin 0⟩⟩ : PEWMA)).Add (Fl.fin 1) =
      ⟨[Fl.fin 1, Fl.fin 1, Fl.fin 1, Fl.fin 1], Config.mk 5 (9/10) (3/10),
        ⟨Fl.fin 1, Fl.fin 1, Fl.fin 0⟩⟩ := by
    unfold PEWMA.Add PEWMA.alpha PEWMA.pushAndPop factors.New
    norm_num
  have h4 : ((⟨[Fl.fin 1, Fl.fin 1, Fl.fin 1, Fl.fin 1],
      Config.mk 5 (9/10) (3/10),
      ⟨Fl.fin 1, Fl.fin 1, Fl.fin 0⟩⟩ : PEWMA)).Add (Fl.fin 1) =
      ⟨[Fl.fin 1, Fl.fin 1, Fl.fin 1, Fl.fin 1, Fl.fin 1],
        Config.mk 5 (9/10) (3/10), ⟨Fl.fin 1, Fl.fin 1, Fl.fin 0⟩⟩ := by
    unfold PEWMA.Add PEWMA.alpha PEWMA.pushAndPop factors.New
    norm_num
  have hall : (PEWMA.New (Config.mk 5 (9/10) (3/10))).ingestAll
      [Fl.fin 1, Fl.fin 1, Fl.fin 1, Fl.fin 1, Fl.fin 1] =
      ⟨[Fl.fin 1, Fl.fin 1, Fl.fin 1, Fl.fin 1, Fl.fin 1],
        Config.mk 5 (9/10) (3/10), ⟨Fl.fin 1, Fl.fin 1, Fl.fin 0⟩⟩ := by
    unfold PEWMA.ingestAll
    simp only [List.foldl_cons, List.foldl_nil, h0, h1, h2, h3, h4]
  have hz1 : (⟨Fl.fin 1, Fl.fin 1, Fl.fin 0⟩ : factors).zt (Fl.fin 1) =
      Fl.nan := by
    unfold factors.zt
    simp
  have hpt1 := pt_of_zt_nan _ _ hz1
  have hdet1 : ¬ (⟨Fl.fin 1, Fl.fin 1, Fl.fin 0⟩ : factors).detectAnomaly
      (Fl.fin (1/100)) (Fl.fin 1) := by
    unfold factors.detectAnomaly
    rw [hpt1]
    simp
  have hz2 : (⟨Fl.fin 1, Fl.fin 1, Fl.fin 0⟩ : factors).zt (Fl.fin 1000) =
      Fl.inf := by
    unfold factors.zt
    norm_num [Fl.div]
  have hpt2 := pt_of_zt_inf _ _ hz2
  have hdet2 : (⟨Fl.fin 1, Fl.fin 1, Fl.fin 0⟩ : factors).detectAnomaly
      (Fl.fin (1/100)) (Fl.fin 1000) := by
    unfold factors.detectAnomaly
    rw [hpt2]
    norm_num
  refine ⟨?_, ?_, ?_⟩
  · unfold NewConfig
    norm_num
  · rw [hall]
    unfold PEWMA.Analyze
    rw [if_neg (by norm_num), if_neg hdet1]
  · rw [hall]
    unfold PEWMA.Analyze
    rw [if_neg (by norm_num), if_pos hdet2]

/-- C1 (evaluation of the code at a failing input): in the warm-up branch
the source computes `Value(1 - 1.0/(l+1))` over the Go `int` type, so for
history length 1 the weight is `1 - 1/2 = 1 - 0 = 1`, not `1/2`; starting
fresh with training period 3 and ingesting `0` then `2`, the blend weight
used for the second value is 1 and the resulting `s1` is `0`, not the
arithmetic mean `1` the claim requires. -/
theorem warmup_weight_integer_division :
    ((PEWMA.New (Config.mk 3 (9/10) (3/10))).Add (Fl.fin 0)).alpha
        (Fl.fin 2) = Fl.fin 1 ∧
    (((PEWMA.New (Config.mk 3 (9/10) (3/10))).Add (Fl.fin 0)).Add
        (Fl.fin 2)).factors.s1 = Fl.fin 0 := by
  have h1 : (PEWMA.New (Config.mk 3 (9/10) (3/10))).Add (Fl.fin 0) =
      ⟨[Fl.fin 0], Config.mk 3 (9/10) (3/10),
        ⟨Fl.fin 0, Fl.fin 0, Fl.fin 0⟩⟩ := by
    unfold PEWMA.Add PEWMA.alpha PEWMA.pushAndPop factors.New PEWMA.New
    norm_num
  rw [h1]
  constructor
  · unfold PEWMA.alpha
    norm_num
  · unfold PEWMA.Add PEWMA.alpha PEWMA.pushAndPop factors.New
    norm_num

/-- C2 (on the modelled configuration, see the note on `NewConfig`): for a
configuration built by `NewConfig` from `alpha0` and `beta`, once the
history has reached the training period the blend weight is
`(1 - beta * pt(v)) * alpha0` with the density evaluated against the
pre-update factors. -/
theorem trained_alpha_formula (t : Int) (a b : ℝ) (c : Config)
    (hc : NewConfig t a b = Except.ok c) (p : PEWMA) (v : Fl)
    (hp : p.config = c)
    (hfull : ¬ (p.captured.length : Int) < c.trainingPeriod) :
    p.alpha v =
      ((Fl.fin 1).sub ((Fl.fin b).mul (p.factors.pt v))).mul (Fl.fin a) := by
  have hc' : c = Config.mk t a b := by
    unfold NewConfig at hc
    by_cases h1 : a ≤ 0 ∨ 1 ≤ a
    · rw [if_pos h1] at hc
      cases hc
    · rw [if_neg h1] at hc
      by_cases h2 : b < 0 ∨ 1 ≤ b
      · rw [if_pos h2] at hc
        cases hc
      · rw [if_neg h2] at hc
        injection hc with h
        exact h.symm
  subst hc'
  unfold PEWMA.alpha
  rw [hp]
  rw [if_neg hfull]

/-- Witness for the trained blend weight at a concrete input: training
period 0, so the fresh processor is already past training. -/
theorem trained_alpha_formula_witness :
    (PEWMA.mk [] (Config.mk 0 (1/2) (1/2))
        (factors.mk (Fl.fin 0) (Fl.fin 0) (Fl.fin 0))).alpha (Fl.fin 0) =
      ((Fl.fin 1).sub ((Fl.fin (1/2)).mul
        ((PEWMA.mk [] (Config.mk 0 (1/2) (1/2))
          (factors.mk (Fl.fin 0) (Fl.fin 0) (Fl.fin 0))).factors.pt
          (Fl.fin 0)))).mul (Fl.fin (1/2)) :=
  trained_alpha_formula 0 (1/2) (1/2) (Config.mk 0 (1/2) (1/2))
    (by unfold NewConfig; norm_num)
    (PEWMA.mk [] (Config.mk 0 (1/2) (1/2))
      (factors.mk (Fl.fin 0) (Fl.fin 0) (Fl.fin 0)))
    (Fl.fin 0) rfl (by norm_num)
